import Mathlib

/-!
Verification of the PackageDev command-completion core: a shallow embedding of
`commands.py` and `keymap_completion.py` (name canonicalization, command
catalog resolution, signature extraction and snippet synthesis), together with
theorems settling the specification claims.

Strings are modelled as `List Char`; Python values that occur as argument
defaults are modelled by `PyValue`; fallible Python code (code that can raise)
returns `Except PyErr`.
-/

set_option maxRecDepth 10000

namespace PackageDev

/-- Python values that appear as command-argument default values
(string, integer, boolean and `None` suffice for this code base). -/
inductive PyValue where
  | str (s : List Char)
  | int (n : Int)
  | bool (b : Bool)
  | null
deriving DecidableEq

/-- One command argument: the Python code represents it as a tuple of length 1
(no default) or length 2 (name, default). -/
structure Arg where
  name : List Char
  default : Option PyValue
deriving DecidableEq

/-- A Python exception relevant to this code base. -/
inductive PyErr where
  | typeError
deriving DecidableEq

/-- Command types, determined by the base class of a command implementation
(`sublime_plugin.TextCommand` / `WindowCommand` / `ApplicationCommand`). -/
inductive CommandKind where
  | text
  | window
  | application
  | other
deriving DecidableEq

/-- The result of `inspect.getfullargspec` on a `run` method: the positional
parameter names and the trailing default values (`spec.defaults or []`). -/
structure FullArgSpec where
  args : List (List Char)
  defaults : List PyValue
deriving DecidableEq

/-- A command implementation class: its `__name__`, its base class
(command type), and its introspectable `run` signature (`none` models a `run`
whose signature `inspect.getfullargspec` cannot inspect and raises on). -/
structure CommandClass where
  clsname : List Char
  kind : CommandKind
  runSpec : Option FullArgSpec
deriving DecidableEq

/-- One entry of the built-in command metadata table: the optional
`command_type` and optional `args` keys of the JSON object. -/
structure MetaEntry where
  command_type : Option (List Char)
  args : Option (List Arg)
deriving DecidableEq

/-- The built-in command metadata table (a Python dict, name to entry). -/
abbrev MetaTable := List (List Char × MetaEntry)

/-- Dict lookup: `meta[k]` or `None`, first matching key. -/
def lookup_meta (meta : MetaTable) (k : List Char) : Option MetaEntry :=
  (meta.find? (fun p => p.1 == k)).map (fun p => p.2)

/-- The character walk of `get_command_name` over `clsname[1:]`:
an uppercase character not preceded by an uppercase character contributes an
underscore plus its lowercase form, every other character is kept as-is. -/
def canon_walk : List Char → Bool → List Char
  | [], _ => []
  | c :: rest, lastUpper =>
    (if c.isUpper && !lastUpper then ['_', c.toLower] else [c]) ++
      canon_walk rest c.isUpper

/-- The suffix strip at the end of `get_command_name`: if the walked name ends
with the literal `_command`, drop exactly those 8 characters. -/
def strip_command_end (name : List Char) : List Char :=
  if ("_command".data).isSuffixOf name then name.take (name.length - 8)
  else name

/-- `get_command_name` (identical in `commands.py` and
`keymap_completion.py`): lowercase the first character, walk the rest with
`last_upper` initially false, then strip a trailing `_command`. On the empty
string the Python code raises `IndexError` at `clsname[0]`, modelled as
`none`. -/
def get_command_name (clsname : List Char) : Option (List Char) :=
  match clsname with
  | [] => none
  | c :: rest => some (strip_command_end (c.toLower :: canon_walk rest false))

/-- The default-alignment comprehension of `extract_command_class_args` /
`extract_command_args`: enumerate the reversed parameter list, give index `i`
the reversed default at `i` when it exists (`len(defaults) > i`), and reverse
the result back. -/
def pair_args_defaults (args : List (List Char)) (defaults : List PyValue) :
    List Arg :=
  ((args.reverse).mapIdx (fun i a => Arg.mk a ((defaults.reverse)[i]?))).reverse

/-- `extract_command_class_args` from `commands.py`: introspect `run`
(raising `TypeError` when the signature cannot be inspected), align defaults
against the end of the parameter list, then drop the first two parameters for
a `TextCommand` (`self`, `edit`) and the first one otherwise (`self`). -/
def extract_command_class_args (c : CommandClass) : Except PyErr (List Arg) :=
  match c.runSpec with
  | none => Except.error PyErr.typeError
  | some spec =>
    let command_args := pair_args_defaults spec.args spec.defaults
    Except.ok (if c.kind = CommandKind.text then command_args.drop 2
               else command_args.drop 1)

/-- `extract_command_args` from `keymap_completion.py` (same code as
`extract_command_class_args`, duplicated in the source). -/
def extract_command_args (c : CommandClass) : Except PyErr (List Arg) :=
  match c.runSpec with
  | none => Except.error PyErr.typeError
  | some spec =>
    let command_args := pair_args_defaults spec.args spec.defaults
    Except.ok (if c.kind = CommandKind.text then command_args.drop 2
               else command_args.drop 1)

/-- `find_class_by_command_name`: the first class of
`sublime_plugin.all_command_classes` (a list of lists, flattened in scan
order) whose canonical name equals the queried name; `None` when the
generator is exhausted (`StopIteration`). -/
def find_class_by_command_name (classes : List (List CommandClass))
    (command_name : List Char) : Option CommandClass :=
  (classes.flatten).find?
    (fun c => get_command_name c.clsname == some command_name)

/-- `get_args_by_command_name`: built-in metadata first (its `args` key,
defaulting to the empty list), else the first class with a matching canonical
name (whose signature extraction may raise), else `None`. -/
def get_args_by_command_name (meta : MetaTable)
    (classes : List (List CommandClass)) (command_name : List Char) :
    Except PyErr (Option (List Arg)) :=
  match lookup_meta meta command_name with
  | some e => Except.ok (some (e.args.getD []))
  | none =>
    match find_class_by_command_name classes command_name with
    | none => Except.ok none
    | some c =>
      match extract_command_args c with
      | Except.error e => Except.error e
      | Except.ok command_args => Except.ok (some command_args)

/-- Python `str.replace` specialised to a single-character pattern. -/
def py_replace (pat : Char) (repl : List Char) : List Char → List Char
  | [] => []
  | c :: rest => (if c = pat then repl else [c]) ++ py_replace pat repl rest

/-- `escape_in_snippet`: `v.replace("\x7d", "\\\x7d")` — every closing brace
becomes backslash-brace. -/
def escape_in_snippet (v : List Char) : List Char :=
  py_replace '\x7d' ['\\', '\x7d'] v

/-- Decimal rendering of a Python int (`str` / `json.dumps` agree on ints). -/
def int_repr (n : Int) : List Char := (toString n).data

/-- `json.dumps` on the default values this code serializes. The `str` case
is unreachable from `make_snippet_value` (string defaults take the
`isinstance(v, str)` branch first) and is given the plain quoted rendering. -/
def jsonDumps : PyValue → List Char
  | PyValue.str s => '"' :: (s ++ ['"'])
  | PyValue.int n => int_repr n
  | PyValue.bool b => if b then ("true".data) else ("false".data)
  | PyValue.null => "null".data

/-- Python `str(...)` on the same values (the non-JSON branch). -/
def pyStr : PyValue → List Char
  | PyValue.str s => s
  | PyValue.int n => int_repr n
  | PyValue.bool b => if b then ("True".data) else ("False".data)
  | PyValue.null => "None".data

/-- `make_snippet_value` of `create_arg_snippet_by_command_args`, with the
counter `_next_i` made explicit: takes the next free placeholder index,
returns the rendered `"key": value` text and the next counter state. Each of
the three branches consumes exactly one index. A string default is embedded
quoted (`"$\x7bi:v\x7d"`), any other default is serialized (`json.dumps` for the
JSON target, `str` otherwise) and embedded unquoted (`$\x7bi:v\x7d`), and a
missing default yields a quoted bare placeholder (`"$i"`). -/
def make_snippet_value (for_json : Bool) (kv : Arg) (i : Nat) :
    List Char × Nat :=
  match kv.default with
  | some v =>
    match v with
    | PyValue.str s =>
      ('"' :: (kv.name ++ ("\": \"$\x7b".data) ++ int_repr i ++ [':'] ++
        escape_in_snippet s ++ ("\x7d\"".data)), i + 1)
    | _ =>
      let dumps := if for_json then jsonDumps v else pyStr v
      ('"' :: (kv.name ++ ("\": $\x7b".data) ++ int_repr i ++ [':'] ++
        escape_in_snippet dumps ++ ("\x7d".data)), i + 1)
  | none =>
    ('"' :: (kv.name ++ ("\": \"$".data) ++ int_repr i ++ ['"']), i + 1)

/-- The generator `(make_snippet_value(kv) for kv in command_args)` with the
shared counter threaded through, starting from `i`. -/
def snippet_values (for_json : Bool) : List Arg → Nat → List (List Char)
  | [], _ => []
  | kv :: rest, i =>
    let r := make_snippet_value for_json kv i
    r.1 :: snippet_values for_json rest r.2

/-- `create_arg_snippet_by_command_args`: render each argument with the shared
counter starting at 1, then wrap: the JSON target joins entries with
`,\n\t` inside `"args": \x7b ... \x7d,$0`; the Python target joins with
`, ` inside braces. -/
def create_arg_snippet_by_command_args (command_args : List Arg)
    (for_json : Bool) : List Char :=
  let vals := snippet_values for_json command_args 1
  if for_json then
    ("\"args\": \x7b\n\t".data) ++ List.intercalate (",\n\t".data) vals ++
      ("\n\x7d,$0".data)
  else
    '\x7b' :: (List.intercalate (", ".data) vals ++ ['\x7d'])

/-- `create_arg_snippet_by_command_name`: resolve the name exactly as
`get_args_by_command_name` does, return `None` for an unknown name or an
empty argument list, else the rendered JSON-target snippet. -/
def create_arg_snippet_by_command_name (meta : MetaTable)
    (classes : List (List CommandClass)) (command_name : List Char) :
    Except PyErr (Option (List Char)) :=
  match lookup_meta meta command_name with
  | some e =>
    let command_args := e.args.getD []
    if command_args.length = 0 then Except.ok none
    else Except.ok (some (create_arg_snippet_by_command_args command_args true))
  | none =>
    match find_class_by_command_name classes command_name with
    | none => Except.ok none
    | some c =>
      match extract_command_args c with
      | Except.error e => Except.error e
      | Except.ok command_args =>
        if command_args.length = 0 then Except.ok none
        else Except.ok
          (some (create_arg_snippet_by_command_args command_args true))

/-- Lexicographic order on strings by character code (Python string `<=`). -/
def str_le : List Char → List Char → Bool
  | [], _ => true
  | _ :: _, [] => false
  | a :: as, b :: bs => if a = b then str_le as bs else decide (a < b)

/-- Insert into a sorted list (helper of `sort_names`). -/
def insort (x : List Char) : List (List Char) → List (List Char)
  | [] => [x]
  | y :: ys => if str_le x y then x :: y :: ys else y :: insort x ys

/-- Python `sorted` on a list of strings, as insertion sort. -/
def sort_names : List (List Char) → List (List Char)
  | [] => []
  | x :: xs => insort x (sort_names xs)

/-- `get_builtin_commands` (cache elided — it is filled with exactly this
value): all metadata keys sorted when the type is empty, else the sorted keys
whose entry has `command_type` equal to the requested type (missing
`command_type` reads as the empty string). -/
def get_builtin_commands (meta : MetaTable) (command_type : List Char) :
    List (List Char) :=
  if command_type = [] then sort_names (meta.map (fun p => p.1))
  else sort_names
    ((meta.filter (fun p => p.2.command_type.getD [] == command_type)).map
      (fun p => p.1))

/-- Modelled from the spec: the host editor's `sublime_plugin` registry (an
external collaborator, not part of this repository) keeps one list of command
classes per command type; the code reads the three lists and their aggregate
`all_command_classes`. -/
structure PluginRegistry where
  text_command_classes : List CommandClass
  window_command_classes : List CommandClass
  application_command_classes : List CommandClass

/-- Modelled from the spec: `sublime_plugin.all_command_classes`, the
aggregate list-of-lists grouping the application, window and text command
classes of the registry. -/
def all_command_classes (reg : PluginRegistry) : List (List CommandClass) :=
  [reg.application_command_classes, reg.window_command_classes,
    reg.text_command_classes]

/-- `get_python_command_classes`: every registered class (flattened aggregate)
for the empty type, else the registry list selected by the dict
`\x7b"text": ..., "window": ..., "app": ...\x7d.get(command_type, [])`. -/
def get_python_command_classes (reg : PluginRegistry)
    (command_type : List Char) : List CommandClass :=
  if command_type = [] then (all_command_classes reg).flatten
  else if command_type == ("text".data) then reg.text_command_classes
  else if command_type == ("window".data) then reg.window_command_classes
  else if command_type == ("app".data) then reg.application_command_classes
  else []

/-- The set of command names a name-completion assembler offers for one
command type: the built-in names followed by the canonical names of the
matching registered classes (as in the two name-completion listeners). -/
def catalog_lookup (meta : MetaTable) (reg : PluginRegistry)
    (command_type : List Char) : List (List Char) :=
  get_builtin_commands meta command_type ++
    (get_python_command_classes reg command_type).filterMap
      (fun c => get_command_name c.clsname)

/-- `SublimeTextCommandArgsCompletionPythonListener._default_args`. -/
def default_args_python : List (List Char × List Char) :=
  [("args\tArguments".data, "\x7b\"$1\": \"$2\"$0\x7d".data)]

/-- The tail of
`SublimeTextCommandArgsCompletionPythonListener.on_query_completions`, after
the command name has been extracted from the line: fetch the arguments with
`get_args_by_command_name` (which returns `None` for an unknown name), feed
the result straight into `create_arg_snippet_by_command_args(..., False)` —
iterating `None` there raises `TypeError` — and fall back to
`_default_args` only when the rendered snippet is falsy (the empty string). -/
def python_args_on_query (meta : MetaTable)
    (classes : List (List CommandClass)) (command_name : List Char) :
    Except PyErr (List (List Char × List Char)) :=
  match get_args_by_command_name meta classes command_name with
  | Except.error e => Except.error e
  | Except.ok none => Except.error PyErr.typeError
  | Except.ok (some command_args) =>
    let args := create_arg_snippet_by_command_args command_args false
    if args = [] then Except.ok default_args_python
    else Except.ok [("args\tauto-detected Arguments".data, args)]

/-- Pairing a list with optional partners taken positionally from a second
list (used to state what the reversed-enumerate comprehension of the
signature extractor computes). -/
def zipOpt : List (List Char) → List PyValue → List Arg
  | [], _ => []
  | a :: l, [] => Arg.mk a none :: zipOpt l []
  | a :: l, b :: m => Arg.mk a (some b) :: zipOpt l m

/-- The parameter names of the worked signature-extraction example
`run(self, edit, target, count=1)`. -/
def example_args : List (List Char) :=
  [("self".data), ("edit".data), ("target".data), ("count".data)]

/-- The trailing default values of the worked example (`count=1`). -/
def example_defaults : List PyValue := [PyValue.int 1]

/-- A text-bound command class with the worked example signature. -/
def example_class : CommandClass :=
  CommandClass.mk ("ExampleCommand".data) CommandKind.text
    (some (FullArgSpec.mk example_args example_defaults))

/-- The indexed comprehension with the positional-lookup guard is `zipOpt`. -/
lemma mapIdx_eq_zipOpt :
    ∀ (l : List (List Char)) (m : List PyValue),
      (l.mapIdx fun i a => Arg.mk a m[i]?) = zipOpt l m := by
  intro l
  induction l with
  | nil => intro m; cases m <;> simp [zipOpt, List.mapIdx_nil]
  | cons a l ih =>
    intro m
    cases m with
    | nil =>
      simp only [List.mapIdx_cons, List.getElem?_nil, zipOpt]
      exact congrArg _ (by simpa using ih [])
    | cons b m =>
      simp only [List.mapIdx_cons, List.getElem?_cons_zero,
        List.getElem?_cons_succ, zipOpt]
      exact congrArg _ (ih m)

/-- `zipOpt` against the empty partner list marks every element `none`. -/
lemma zipOpt_nil (l : List (List Char)) :
    zipOpt l [] = l.map (fun a => Arg.mk a none) := by
  induction l with
  | nil => rfl
  | cons a l ih => simp [zipOpt, ih]

/-- When the partner list is no longer, `zipOpt` pairs the first
`m.length` elements with `m` and marks the rest `none`. -/
lemma zipOpt_eq_zipWith_append :
    ∀ (m : List PyValue) (l : List (List Char)), m.length ≤ l.length →
      zipOpt l m =
        List.zipWith (fun a v => Arg.mk a (some v)) (l.take m.length) m ++
          (l.drop m.length).map (fun a => Arg.mk a none) := by
  intro m
  induction m with
  | nil => intro l h; simp [zipOpt_nil]
  | cons b m ih =>
    intro l h
    cases l with
    | nil => simp at h
    | cons a l =>
      have hl : m.length ≤ l.length := by simpa using h
      simp [zipOpt, ih l hl]

/-- Reversal commutes with `zipWith` on lists of equal length. -/
lemma zipWith_reverse_of_length_eq {α β γ : Type} (f : α → β → γ) :
    ∀ (x : List α) (y : List β), x.length = y.length →
      (List.zipWith f x y).reverse = List.zipWith f x.reverse y.reverse := by
  intro x
  induction x with
  | nil => intro y h; cases y <;> simp at h ⊢
  | cons a x ih =>
    intro y h
    cases y with
    | nil => simp at h
    | cons b y =>
      have hl : x.length = y.length := by simpa using h
      simp only [List.zipWith_cons_cons, List.reverse_cons]
      rw [ih y hl,
        List.zipWith_append _ _ _ _ _ (by simp [hl])]
      simp

/-- The reversed-enumerate alignment of the signature extractor, written
directly: defaults are aligned against the end of the parameter list. -/
lemma pair_args_defaults_eq (args : List (List Char))
    (defaults : List PyValue) (h : defaults.length ≤ args.length) :
    pair_args_defaults args defaults =
      (args.take (args.length - defaults.length)).map
          (fun a => Arg.mk a none) ++
        List.zipWith (fun a v => Arg.mk a (some v))
          (args.drop (args.length - defaults.length)) defaults := by
  unfold pair_args_defaults
  rw [mapIdx_eq_zipOpt,
    zipOpt_eq_zipWith_append _ _ (by simpa using h),
    List.reverse_append]
  have hdrop : (args.reverse.drop defaults.reverse.length).reverse
      = args.take (args.length - defaults.length) := by
    have : (args.take (args.length - defaults.length)).reverse
        = args.reverse.drop defaults.reverse.length := by
      rw [List.reverse_take]
      congr 1
      simp only [List.length_reverse]
      omega
    rw [← this, List.reverse_reverse]
  have htake : (args.reverse.take defaults.reverse.length).reverse
      = args.drop (args.length - defaults.length) := by
    rw [List.take_reverse, List.reverse_reverse]
    congr 1
    simp only [List.length_reverse]
  rw [zipWith_reverse_of_length_eq _ _ _
      (by simp only [List.length_take, List.length_reverse]; omega),
    ← List.map_reverse, hdrop, htake, List.reverse_reverse]

/-- `find?` over a decomposed list: no hit in the prefix, a hit at the seam.
-/
lemma find?_append_first {α : Type} (p : α → Bool) :
    ∀ (l1 : List α) (c : α) (l2 : List α), (∀ x ∈ l1, p x = false) →
      p c = true → (l1 ++ c :: l2).find? p = some c := by
  intro l1
  induction l1 with
  | nil => intro c l2 _ hc; simpa using List.find?_cons_of_pos l2 hc
  | cons x xs ih =>
    intro c l2 h1 hc
    have hx : ¬ p x = true := by simp [h1 x (by simp)]
    simpa [List.cons_append, List.find?_cons_of_neg _ hx] using
      ih c l2 (fun y hy => h1 y (by simp [hy])) hc

/-- Membership is preserved by sorted insertion. -/
lemma mem_insort (x a : List Char) :
    ∀ l : List (List Char), a ∈ insort x l ↔ a ∈ x :: l := by
  intro l
  induction l with
  | nil => simp [insort]
  | cons y ys ih =>
    by_cases h : str_le x y = true
    · simp [insort, h]
    · simp only [insort, if_neg h, List.mem_cons, ih]
      tauto

/-- Membership is preserved by `sort_names`. -/
lemma mem_sort_names (a : List Char) :
    ∀ l : List (List Char), a ∈ sort_names l ↔ a ∈ l := by
  intro l
  induction l with
  | nil => simp [sort_names]
  | cons x xs ih => simp [sort_names, mem_insort, ih]

/-- `escape_in_snippet` acts pointwise. -/
lemma escape_in_snippet_flatMap :
    ∀ s : List Char, escape_in_snippet s =
      s.flatMap (fun c => if c = '\x7d' then ['\\', '\x7d'] else [c]) := by
  intro s
  induction s with
  | nil => rfl
  | cons c rest ih =>
    simp only [escape_in_snippet, py_replace, List.flatMap_cons] at ih ⊢
    rw [ih]

/-- Each branch of `make_snippet_value` consumes exactly one counter value. -/
lemma make_snippet_value_counter (fj : Bool) (kv : Arg) (i : Nat) :
    (make_snippet_value fj kv i).2 = i + 1 := by
  cases kv with
  | mk n d =>
    cases d with
    | none => rfl
    | some v => cases v <;> rfl

/-- Built-in names surviving a type filter are built-in names of the
unfiltered query. -/
lemma mem_get_builtin_commands_of_filtered (meta : MetaTable)
    (ct x : List Char) (hct : ct ≠ [])
    (hx : x ∈ get_builtin_commands meta ct) :
    x ∈ get_builtin_commands meta [] := by
  unfold get_builtin_commands at hx ⊢
  rw [if_neg hct] at hx
  rw [if_pos rfl]
  rw [mem_sort_names] at hx ⊢
  rcases List.mem_map.mp hx with ⟨p, hp, hpx⟩
  exact List.mem_map.mpr ⟨p, (List.mem_filter.mp hp).1, hpx⟩

/-- C1: name resolution consults the built-in metadata first and returns its
declared args verbatim (empty when the `args` key is missing); only when the
name is absent does it scan the flattened implementation list in declaration
order, taking the first class whose canonical name equals the queried name;
when neither source has the name it returns not-found (`None`). -/
theorem resolve_name_precedence :
    (∀ (meta : MetaTable) (classes : List (List CommandClass))
        (name : List Char) (e : MetaEntry),
      lookup_meta meta name = some e →
      get_args_by_command_name meta classes name
        = Except.ok (some (e.args.getD []))) ∧
    (∀ (meta : MetaTable) (classes : List (List CommandClass))
        (name : List Char) (l1 : List CommandClass) (c : CommandClass)
        (l2 : List CommandClass),
      lookup_meta meta name = none →
      classes.flatten = l1 ++ c :: l2 →
      (∀ c2 ∈ l1, ¬ (get_command_name c2.clsname = some name)) →
      get_command_name c.clsname = some name →
      get_args_by_command_name meta classes name
        = Except.map some (extract_command_args c)) ∧
    (∀ (meta : MetaTable) (classes : List (List CommandClass))
        (name : List Char),
      lookup_meta meta name = none →
      (∀ c ∈ classes.flatten, ¬ (get_command_name c.clsname = some name)) →
      get_args_by_command_name meta classes name = Except.ok none) := by
  refine ⟨?_, ?_, ?_⟩
  · intro meta classes name e he
    simp only [get_args_by_command_name, he]
  · intro meta classes name l1 c l2 hmeta hflat h1 hc
    have hfind : find_class_by_command_name classes name = some c := by
      unfold find_class_by_command_name
      rw [hflat]
      exact find?_append_first _ l1 c l2
        (fun x hx => beq_eq_false_iff_ne.mpr (h1 x hx))
        (beq_iff_eq.mpr hc)
    simp only [get_args_by_command_name, hmeta, hfind]
    cases extract_command_args c <;> rfl
  · intro meta classes name hmeta h2
    have hfind : find_class_by_command_name classes name = none := by
      unfold find_class_by_command_name
      exact List.find?_eq_none.mpr
        (fun x hx => by simpa [beq_iff_eq] using h2 x hx)
    simp only [get_args_by_command_name, hmeta, hfind]

/-- Closed instance of C1 at a one-entry metadata table. -/
theorem resolve_name_precedence_witness :
    get_args_by_command_name
        [(("move".data),
          MetaEntry.mk (some ("text".data))
            (some [Arg.mk ("forward".data) (some (PyValue.bool true))]))]
        [] ("move".data)
      = Except.ok (some [Arg.mk ("forward".data)
          (some (PyValue.bool true))]) :=
  resolve_name_precedence.1
    [(("move".data),
      MetaEntry.mk (some ("text".data))
        (some [Arg.mk ("forward".data) (some (PyValue.bool true))]))]
    [] ("move".data)
    (MetaEntry.mk (some ("text".data))
      (some [Arg.mk ("forward".data) (some (PyValue.bool true))]))
    (by decide)

/-- C2: the canonicalizer never throws on a non-empty identifier,
`FooBarCommand` canonicalizes to `foo_bar`, `RunCommand` to `run`, and a walk
result ending in the literal `_command` has exactly those 8 characters
stripped. -/
theorem canonicalize_total_and_examples :
    (∀ s : List Char, s ≠ [] → (get_command_name s).isSome = true) ∧
    get_command_name ("FooBarCommand".data) = some ("foo_bar".data) ∧
    get_command_name ("RunCommand".data) = some ("run".data) ∧
    (∀ (c : Char) (rest w : List Char),
      w = c.toLower :: canon_walk rest false →
      ("_command".data).isSuffixOf w = true →
      get_command_name (c :: rest) = some (w.take (w.length - 8))) := by
  refine ⟨?_, by decide, by decide, ?_⟩
  · intro s hs
    cases s with
    | nil => exact absurd rfl hs
    | cons c rest => rfl
  · intro c rest w hw hsuf
    subst hw
    simp only [get_command_name, strip_command_end, hsuf, if_true]

/-- Closed instance of C2: totality at `RunCommand`, suffix stripping at
`FooCommand`. -/
theorem canonicalize_total_and_examples_witness :
    (get_command_name ("RunCommand".data)).isSome = true ∧
    get_command_name ('F' :: ("ooCommand".data))
      = some (("foo_command".data).take ((("foo_command".data)).length - 8)) :=
  ⟨canonicalize_total_and_examples.1 ("RunCommand".data) (by decide),
   canonicalize_total_and_examples.2.2.2 'F' ("ooCommand".data)
     ("foo_command".data) (by decide) (by decide)⟩

/-- C3 counterexample: the code does not produce one underscore per letter of
an uppercase run; `HTTPRequestCommand` does not canonicalize to
`h_t_t_p_request`. -/
theorem acronym_per_letter_underscore_false :
    ¬ (get_command_name ("HTTPRequestCommand".data)
        = some ("h_t_t_p_request".data)) := by decide

/-- C3 amended: only the first letter of an uppercase run gets an underscore
and is lowercased; the following letters of the run are kept unchanged
(still uppercase): `HTTPRequestCommand` canonicalizes to `h_tTPRequest`. -/
theorem acronym_first_of_run_only :
    get_command_name ("HTTPRequestCommand".data)
      = some ("h_tTPRequest".data) := by decide

/-- C4: for any fixed metadata table and plugin registry, the unfiltered
name catalog contains every name produced by the `text`, `window` and
`application` filtered lookups. -/
theorem catalog_unfiltered_superset (meta : MetaTable) (reg : PluginRegistry)
    (x : List Char)
    (hx : x ∈ catalog_lookup meta reg ("text".data) ∨
          x ∈ catalog_lookup meta reg ("window".data) ∨
          x ∈ catalog_lookup meta reg ("application".data)) :
    x ∈ catalog_lookup meta reg [] := by
  have hall : ∀ c : CommandClass,
      c ∈ reg.text_command_classes ∨ c ∈ reg.window_command_classes →
      c ∈ get_python_command_classes reg [] := by
    intro c hc
    show c ∈ (all_command_classes reg).flatten
    rcases hc with h | h
    · exact List.mem_flatten.mpr
        ⟨reg.text_command_classes, by simp [all_command_classes], h⟩
    · exact List.mem_flatten.mpr
        ⟨reg.window_command_classes, by simp [all_command_classes], h⟩
  unfold catalog_lookup at hx ⊢
  rcases hx with h | h | h <;> rcases List.mem_append.mp h with hb | hp
  · exact List.mem_append.mpr
      (Or.inl (mem_get_builtin_commands_of_filtered meta _ x (by decide) hb))
  · rw [show get_python_command_classes reg ("text".data)
        = reg.text_command_classes from rfl] at hp
    rcases List.mem_filterMap.mp hp with ⟨c, hc, hf⟩
    exact List.mem_append.mpr
      (Or.inr (List.mem_filterMap.mpr ⟨c, hall c (Or.inl hc), hf⟩))
  · exact List.mem_append.mpr
      (Or.inl (mem_get_builtin_commands_of_filtered meta _ x (by decide) hb))
  · rw [show get_python_command_classes reg ("window".data)
        = reg.window_command_classes from rfl] at hp
    rcases List.mem_filterMap.mp hp with ⟨c, hc, hf⟩
    exact List.mem_append.mpr
      (Or.inr (List.mem_filterMap.mpr ⟨c, hall c (Or.inr hc), hf⟩))
  · exact List.mem_append.mpr
      (Or.inl (mem_get_builtin_commands_of_filtered meta _ x (by decide) hb))
  · rw [show get_python_command_classes reg ("application".data)
        = [] from rfl] at hp
    simp at hp

/-- Closed instance of C4: a text-typed built-in surfaces in the unfiltered
catalog. -/
theorem catalog_unfiltered_superset_witness :
    ("move".data) ∈ catalog_lookup
      [(("move".data), MetaEntry.mk (some ("text".data)) none)]
      (PluginRegistry.mk [] [] []) [] :=
  catalog_unfiltered_superset
    [(("move".data), MetaEntry.mk (some ("text".data)) none)]
    (PluginRegistry.mk [] [] []) ("move".data) (Or.inl (by decide))

/-- C5: signature extraction aligns the defaults against the end of the
parameter list, then drops the first two parameters for a text command and
the first parameter otherwise; on `run(self, edit, target, count=1)` of a
text command it yields exactly `[("target",), ("count", 1)]`. -/
theorem extract_args_alignment :
    (∀ (c : CommandClass) (fas : FullArgSpec), c.runSpec = some fas →
      fas.defaults.length ≤ fas.args.length →
      extract_command_class_args c = Except.ok
        ((((fas.args.take (fas.args.length - fas.defaults.length)).map
              (fun a => Arg.mk a none)) ++
          List.zipWith (fun a v => Arg.mk a (some v))
            (fas.args.drop (fas.args.length - fas.defaults.length))
            fas.defaults).drop
          (if c.kind = CommandKind.text then 2 else 1))) ∧
    extract_command_class_args example_class
      = Except.ok [Arg.mk ("target".data) none,
                   Arg.mk ("count".data) (some (PyValue.int 1))] := by
  constructor
  · intro c fas hc h
    cases c with
    | mk nm k rs =>
      simp only at hc
      subst hc
      simp only [extract_command_class_args,
        pair_args_defaults_eq fas.args fas.defaults h]
      split <;> rfl
  · rfl

/-- Closed instance of C5 at the worked example class. -/
theorem extract_args_alignment_witness :
    extract_command_class_args example_class = Except.ok
      ((((example_args.take
            (example_args.length - example_defaults.length)).map
            (fun a => Arg.mk a none)) ++
        List.zipWith (fun a v => Arg.mk a (some v))
          (example_args.drop (example_args.length - example_defaults.length))
          example_defaults).drop
        (if example_class.kind = CommandKind.text then 2 else 1)) :=
  extract_args_alignment.1 example_class
    (FullArgSpec.mk example_args example_defaults) rfl (by decide)

/-- C6: synthesis of `[("target",), ("count", 1)]` for the JSON target
numbers the placeholders 1 and 2 in order with `count`'s default embedded
literally; each rendered entry consumes exactly one value of the single
shared counter (so it increases across entries and is never reset); and a
closing brace inside a string default is escaped in the emitted snippet. -/
theorem snippet_numbering_and_embedding :
    create_arg_snippet_by_command_args
        [Arg.mk ("target".data) none,
         Arg.mk ("count".data) (some (PyValue.int 1))] true
      = ("\"args\": \x7b\n\t\"target\": \"$1\",\n\t\"count\": $\x7b2:1\x7d\n\x7d,$0".data) ∧
    (∀ (fj : Bool) (kv : Arg) (i : Nat),
      (make_snippet_value fj kv i).2 = i + 1) ∧
    create_arg_snippet_by_command_args
        [Arg.mk ("fmt".data) (some (PyValue.str ("a\x7db".data)))] true
      = ("\"args\": \x7b\n\t\"fmt\": \"$\x7b1:a\\\x7db\x7d\"\n\x7d,$0".data) :=
  ⟨by decide, make_snippet_value_counter, by decide⟩

/-- C7 counterexample: for the call-literal (Python) target the no-default
placeholder is still wrapped in quotes, not emitted bare. -/
theorem call_target_unquoted_false :
    (make_snippet_value false (Arg.mk ("target".data) none) 1).1
        = ("\"target\": \"$1\"".data) ∧
    ¬ ((make_snippet_value false (Arg.mk ("target".data) none) 1).1
        = ("\"target\": $1".data)) := by decide

/-- C7 amended: an argument entry with no default is rendered identically
for both targets, as a placeholder wrapped in string-literal quotes. -/
theorem bare_placeholder_quoted_both_targets (k : List Char) (i : Nat) :
    make_snippet_value true (Arg.mk k none) i
        = make_snippet_value false (Arg.mk k none) i ∧
    make_snippet_value true (Arg.mk k none) i
        = ('"' :: (k ++ ("\": \"$".data) ++ int_repr i ++ ['"']), i + 1) :=
  ⟨rfl, rfl⟩

/-- C8 (code bug): the Python args listener raises `TypeError` when the
command name resolves to no descriptor (it feeds `None` into the snippet
synthesizer), and for a descriptor with an empty argument-spec it returns the
snippet `\x7b\x7d` — which is not the fixed default skeleton. -/
theorem python_listener_unresolvable_crash :
    python_args_on_query [] [] ("move".data)
        = Except.error PyErr.typeError ∧
    python_args_on_query
        [(("move".data), MetaEntry.mk (some ("text".data)) (some []))] []
        ("move".data)
      = Except.ok [("args\tauto-detected Arguments".data, ("\x7b\x7d".data))] ∧
    ¬ ([("args\tauto-detected Arguments".data, ("\x7b\x7d".data))]
        = default_args_python) :=
  ⟨rfl, rfl, by decide⟩

/-- C9 counterexample: when the `run` signature cannot be introspected,
signature extraction raises (`TypeError`) instead of returning the empty
argument list. -/
theorem extract_args_error_not_empty :
    extract_command_args
        (CommandClass.mk ("BadRunCommand".data) CommandKind.window none)
      = Except.error PyErr.typeError ∧
    ¬ (extract_command_args
        (CommandClass.mk ("BadRunCommand".data) CommandKind.window none)
      = Except.ok []) :=
  ⟨rfl, fun h => Except.noConfusion h⟩

/-- C9 amended: a failed signature introspection propagates out of both
signature extractors as a `TypeError`, and a caller resolving such a class
propagates the error instead of falling back to the default skeleton. -/
theorem extract_args_propagates (c : CommandClass)
    (h : c.runSpec = none) :
    extract_command_args c = Except.error PyErr.typeError ∧
    extract_command_class_args c = Except.error PyErr.typeError ∧
    create_arg_snippet_by_command_name []
        [[CommandClass.mk ("BadRunCommand".data) CommandKind.window none]]
        ("bad_run".data) = Except.error PyErr.typeError := by
  cases c with
  | mk nm k rs =>
    simp only at h
    subst h
    exact ⟨rfl, rfl, rfl⟩

/-- Closed instance of C9 at a malformed text command class. -/
theorem extract_args_propagates_witness :
    extract_command_args
        (CommandClass.mk ("NoSignatureCommand".data) CommandKind.text none)
      = Except.error PyErr.typeError ∧
    extract_command_class_args
        (CommandClass.mk ("NoSignatureCommand".data) CommandKind.text none)
      = Except.error PyErr.typeError ∧
    create_arg_snippet_by_command_name []
        [[CommandClass.mk ("BadRunCommand".data) CommandKind.window none]]
        ("bad_run".data) = Except.error PyErr.typeError :=
  extract_args_propagates
    (CommandClass.mk ("NoSignatureCommand".data) CommandKind.text none) rfl

/-- C10: snippet escaping rewrites every closing brace of placeholder
content to backslash-brace and leaves every other character unchanged;
dollar, backslash, opening brace and newline in a string default pass
through verbatim; argument names are embedded verbatim, never escaped. -/
theorem escape_replaces_only_closing_brace :
    (∀ s : List Char, escape_in_snippet s =
      s.flatMap (fun c => if c = '\x7d' then ['\\', '\x7d'] else [c])) ∧
    escape_in_snippet ("$\\\x7b\n".data) = ("$\\\x7b\n".data) ∧
    (make_snippet_value true
        (Arg.mk ("k".data) (some (PyValue.str ("$\\\x7b\n\x7d".data)))) 1).1
      = ("\"k\": \"$\x7b1:$\\\x7b\n\\\x7d\x7d\"".data) ∧
    (∀ (fj : Bool) (kv : Arg) (i : Nat), ∃ v : List Char,
      (make_snippet_value fj kv i).1
        = '"' :: (kv.name ++ ("\": ".data) ++ v)) := by
  refine ⟨escape_in_snippet_flatMap, by decide, by decide, ?_⟩
  intro fj kv i
  cases kv with
  | mk n d =>
    cases d with
    | none =>
      exact ⟨("\"$".data) ++ int_repr i ++ ['"'],
        by simp [make_snippet_value, List.append_assoc]⟩
    | some v =>
      cases v with
      | str s =>
        exact ⟨("\"$\x7b".data) ++ int_repr i ++ [':'] ++
            escape_in_snippet s ++ ("\x7d\"".data),
          by simp [make_snippet_value, List.append_assoc]⟩
      | int m =>
        exact ⟨("$\x7b".data) ++ int_repr i ++ [':'] ++
            escape_in_snippet
              (if fj then jsonDumps (PyValue.int m)
               else pyStr (PyValue.int m)) ++ ("\x7d".data),
          by simp [make_snippet_value, List.append_assoc]⟩
      | bool b =>
        exact ⟨("$\x7b".data) ++ int_repr i ++ [':'] ++
            escape_in_snippet
              (if fj then jsonDumps (PyValue.bool b)
               else pyStr (PyValue.bool b)) ++ ("\x7d".data),
          by simp [make_snippet_value, List.append_assoc]⟩
      | null =>
        exact ⟨("$\x7b".data) ++ int_repr i ++ [':'] ++
            escape_in_snippet
              (if fj then jsonDumps PyValue.null
               else pyStr PyValue.null) ++ ("\x7d".data),
          by simp [make_snippet_value, List.append_assoc]⟩

end PackageDev
